import Mathlib

/-! # otel-grafana-cloud-example: the compute service, its client and the log enricher

A shallow embedding of

* `cmd/fibonacci-service/main.go`: `fibonacci` and `calculateHandlerFunc`,
* `cmd/load-generator/main.go`: `callFibonacciService`,
* `telemetry/telemetry.go`: `OtelHandler.Handle`,

followed by the properties proved about them.

Conventions.  Go's `int64` is `Int` with every addition reduced by `wrap64`
(two's complement wrap-around).  A Go `error` is `Option String` (`none` is
`nil`, `some msg` carries `err.Error()`).  Byte strings (request and response
bodies) are `List Char`.
-/

set_option maxRecDepth 100000

namespace OtelExample

/-! ## Machine integers and `%d` -/

/-- The smallest `int64`. -/
def minInt64 : Int := -(2 ^ 63)

/-- The largest `int64`. -/
def maxInt64 : Int := 2 ^ 63 - 1

/-- Membership in the range of Go's `int64`. -/
def isInt64 (x : Int) : Prop := minInt64 ≤ x ∧ x ≤ maxInt64

instance (x : Int) : Decidable (isInt64 x) := by
  unfold isInt64; exact inferInstance

/-- Two's complement reduction of a mathematical integer to `int64`: what Go's
`+` on `int64` yields for the exact sum. -/
def wrap64 (x : Int) : Int := (x + 2 ^ 63) % 2 ^ 64 - 2 ^ 63

/-- The decimal digit character of `d < 10`. -/
def digitChar (d : Nat) : Char := Char.ofNat (48 + d)

/-- Decimal digits of a natural number, most significant first, prepended to
`acc`; `fuel` bounds the number of digits produced. -/
def natDigits : Nat → Nat → List Char → List Char
  | 0, _, acc => acc
  | fuel + 1, n, acc =>
    if n < 10 then digitChar n :: acc
    else natDigits fuel (n / 10) (digitChar (n % 10) :: acc)

/-- Decimal text of a natural number (`"0"` for zero, no leading zeros). -/
def formatNat (n : Nat) : List Char := natDigits (n + 1) n []

/-- The verb `%d` of Go's `fmt` applied to an `int64`: an optional `-` followed
by the decimal digits of the magnitude. -/
def formatInt (n : Int) : List Char :=
  if n < 0 then '-' :: formatNat n.natAbs else formatNat n.toNat

/-! ## `fibonacci` (cmd/fibonacci-service/main.go) -/

/-- The message of `fmt.Errorf("unsupported Fibonacci number %d: too large", n)`. -/
def unsupportedError (n : Int) : String :=
  String.mk ("unsupported Fibonacci number ".toList ++ formatInt n ++ ": too large".toList)

/-- The loop `for i := int64(2); i < n; i++ { n2, n1 = n1, n1+n2 }`, started in
the state `(i, n2, n1)`; it returns the final `(n2, n1)`.  `fuel` bounds the
number of iterations. -/
def fibLoop (n : Int) : Nat → Int → Int → Int → Int × Int
  | 0, _, n2, n1 => (n2, n1)
  | fuel + 1, i, n2, n1 =>
    if i < n then fibLoop n fuel (wrap64 (i + 1)) n1 (wrap64 (n1 + n2))
    else (n2, n1)

/-- The function `fibonacci(n int64) (int64, error)`.  The loop starts at `i = 2` and is
entered only for `2 ≤ n ≤ 90`, so `n - 2` iterations of fuel are exactly what it
uses. -/
def fibonacci (n : Int) : Int × Option String :=
  if n ≤ 1 then (n, none)
  else if n > 90 then (0, some (unsupportedError n))
  else
    let s := fibLoop n (n - 2).toNat 2 0 1
    (wrap64 (s.1 + s.2), none)

/-- The sequence of the specification: `f(0)=0`, `f(1)=1`, `f(k)=f(k-1)+f(k-2)`,
over the unbounded naturals. -/
def fibSpec : Nat → Nat
  | 0 => 0
  | 1 => 1
  | k + 2 => fibSpec (k + 1) + fibSpec k

/-! ## JSON decoding into a one-field struct (`encoding/json`)

Both programs decode a JSON body into a struct with a single `int64` field:
`struct{ N int64 "json:n" }` in the service and `struct{ F int64 "json:f" }` in
the client.  `json.NewDecoder(r).Decode(&v)` is library code; the model below
follows its documented behaviour for such a target: leading white space is
skipped, one complete JSON value is read (anything after it is left unread),
`null` leaves the struct untouched, an object stores each member whose key
equals the field name up to letter case, and every other shape of value is an
error.  The field is zero before decoding.  Bodies are sequences of characters,
that is, valid UTF-8. -/

/-- The ways `Decode` fails: nothing but white space before the end of input,
malformed JSON (this includes input that stops inside a value and nesting
deeper than the decoder allows), and well-formed JSON that does not fit the
target (`*json.UnmarshalTypeError`). -/
inductive JsonError where
  | eof
  | syntaxError
  | typeMismatch
  deriving DecidableEq, Repr

/-- The outermost shape of a JSON value.  A number keeps its literal text (it is
converted once the target type is known), a string its unquoted contents;
arrays and nested objects are only checked for well-formedness. -/
inductive JValue where
  | null
  | bool (b : Bool)
  | number (lit : List Char)
  | string (s : List Char)
  | array
  | object
  deriving DecidableEq, Repr

/-- The limit `maxNestingDepth` of the decoder's scanner. -/
def maxNestingDepth : Nat := 10000

/-- White space of JSON: space, tab, carriage return, line feed. -/
def isSpace (c : Char) : Bool := c = ' ' ∨ c = '\t' ∨ c = '\r' ∨ c = '\n'

/-- Decimal digits. -/
def isDigit (c : Char) : Bool := 48 ≤ c.toNat ∧ c.toNat ≤ 57

/-- Drop leading white space. -/
def skipSpace : List Char → List Char
  | [] => []
  | c :: cs => if isSpace c then skipSpace cs else c :: cs

/-- The longest prefix of digits, and what follows it. -/
def spanDigits : List Char → List Char × List Char
  | [] => ([], [])
  | c :: cs =>
    if isDigit c then ((spanDigits cs).1.cons c, (spanDigits cs).2) else ([], c :: cs)

/-- The exponent part of a number, if one starts here: `e` or `E`, an optional
sign, at least one digit.  `lit` is the literal read so far. -/
def scanExponent (lit : List Char) (cs : List Char) : Option (List Char × List Char) :=
  match cs with
  | [] => some (lit, [])
  | c :: rest =>
    if c = 'e' ∨ c = 'E' then
      match rest with
      | [] => none
      | s :: rest1 =>
        if s = '+' ∨ s = '-' then
          match rest1 with
          | [] => none
          | d :: rest2 =>
            if isDigit d then
              some (lit ++ c :: s :: d :: (spanDigits rest2).1, (spanDigits rest2).2)
            else none
        else if isDigit s then
          some (lit ++ c :: s :: (spanDigits rest1).1, (spanDigits rest1).2)
        else none
    else some (lit, c :: rest)

/-- The fraction part of a number, if one starts here (`.` and at least one
digit), then the exponent part. -/
def scanFraction (lit : List Char) (cs : List Char) : Option (List Char × List Char) :=
  match cs with
  | [] => some (lit, [])
  | c :: rest =>
    if c = '.' then
      match rest with
      | [] => none
      | d :: rest1 =>
        if isDigit d then
          scanExponent (lit ++ c :: d :: (spanDigits rest1).1) (spanDigits rest1).2
        else none
    else scanExponent lit (c :: rest)

/-- The integer part of a number: a single `0`, or a digit `1`..`9` followed by
digits; then fraction and exponent.  `sign` is `[]` or `['-']`. -/
def scanInteger (sign : List Char) (cs : List Char) : Option (List Char × List Char) :=
  match cs with
  | [] => none
  | c :: rest =>
    if c = '0' then scanFraction (sign ++ [c]) rest
    else if isDigit c then
      scanFraction (sign ++ c :: (spanDigits rest).1) (spanDigits rest).2
    else none

/-- A JSON number literal at the head of the input: its text and what follows. -/
def scanNumber (cs : List Char) : Option (List Char × List Char) :=
  match cs with
  | [] => none
  | c :: rest => if c = '-' then scanInteger [c] rest else scanInteger [] (c :: rest)

/-- Value of a hexadecimal digit. -/
def hexVal (c : Char) : Option Nat :=
  if isDigit c then some (c.toNat - 48)
  else if 97 ≤ c.toNat ∧ c.toNat ≤ 102 then some (c.toNat - 87)
  else if 65 ≤ c.toNat ∧ c.toNat ≤ 70 then some (c.toNat - 55)
  else none

/-- Four hexadecimal digits (the payload of a `\u` escape) and what follows. -/
def getu4 (cs : List Char) : Option (Nat × List Char) :=
  match cs with
  | a :: b :: c :: d :: rest =>
    match hexVal a, hexVal b, hexVal c, hexVal d with
    | some x, some y, some z, some w => some (((x * 16 + y) * 16 + z) * 16 + w, rest)
    | _, _, _, _ => none
  | _ => none

/-- The character a one-letter escape stands for. -/
def escapeChar (e : Char) : Option Char :=
  if e = '"' then some '"'
  else if e = '\\' then some '\\'
  else if e = '/' then some '/'
  else if e = 'b' then some (Char.ofNat 8)
  else if e = 'f' then some (Char.ofNat 12)
  else if e = 'n' then some '\n'
  else if e = 'r' then some '\r'
  else if e = 't' then some '\t'
  else none

/-- The low surrogate that completes the high surrogate `u`, when the input
goes on with a `\u` escape holding one: the combined code point and the rest. -/
def surrogatePair (u : Nat) (cs : List Char) : Option (Nat × List Char) :=
  match cs with
  | b :: e :: rest =>
    if b = '\\' ∧ e = 'u' then
      match getu4 rest with
      | some (u2, rest1) =>
        if 0xD800 ≤ u ∧ u < 0xDC00 ∧ 0xDC00 ≤ u2 ∧ u2 < 0xE000 then
          some ((u - 0xD800) * 0x400 + (u2 - 0xDC00) + 0x10000, rest1)
        else none
      | none => none
    else none
  | _ => none

/-- The body of a string literal, after its opening quote: the unquoted contents
(collected in reverse in `acc`) and what follows the closing quote.  Control
characters are rejected; a `\u` escape holding half of a surrogate pair that is
not completed by the next escape stands for U+FFFD. -/
def parseString : Nat → List Char → List Char → Option (List Char × List Char)
  | 0, _, _ => none
  | fuel + 1, cs, acc =>
    match cs with
    | [] => none
    | c :: rest =>
      if c = '"' then some (acc.reverse, rest)
      else if c = '\\' then
        match rest with
        | [] => none
        | e :: rest1 =>
          if e = 'u' then
            match getu4 rest1 with
            | none => none
            | some (u, rest2) =>
              if 0xD800 ≤ u ∧ u < 0xE000 then
                match surrogatePair u rest2 with
                | some (r, rest3) => parseString fuel rest3 (Char.ofNat r :: acc)
                | none => parseString fuel rest2 (Char.ofNat 0xFFFD :: acc)
              else parseString fuel rest2 (Char.ofNat u :: acc)
          else
            match escapeChar e with
            | some x => parseString fuel rest1 (x :: acc)
            | none => none
      else if c.toNat < 0x20 then none
      else parseString fuel rest (c :: acc)

/-- The rest of a literal name (`true`, `false`, `null`) after its first letter:
the input must go on with exactly the letters `word`; what follows them is
returned. -/
def scanLiteral : List Char → List Char → Option (List Char)
  | [], cs => some cs
  | _ :: _, [] => none
  | w :: ws, c :: cs => if c = w then scanLiteral ws cs else none

mutual

/-- One JSON value at the head of the input (white space already skipped) with
`depth` containers open around it: its shape and what follows it. -/
def parseValue : Nat → Nat → List Char → Option (JValue × List Char)
  | 0, _, _ => none
  | fuel + 1, depth, cs =>
    match cs with
    | [] => none
    | c :: rest =>
      if c = '\x7b' then
        if depth + 1 > maxNestingDepth then none
        else
          match skipSpace rest with
          | [] => none
          | d :: rest1 =>
            if d = '\x7d' then some (JValue.object, rest1)
            else (parseMembers fuel (depth + 1) (d :: rest1) []).map fun r => (JValue.object, r.2)
      else if c = '[' then
        if depth + 1 > maxNestingDepth then none
        else
          match skipSpace rest with
          | [] => none
          | d :: rest1 =>
            if d = ']' then some (JValue.array, rest1)
            else (parseElements fuel (depth + 1) (d :: rest1)).map fun r => (JValue.array, r)
      else if c = '"' then
        (parseString (rest.length + 1) rest []).map fun r => (JValue.string r.1, r.2)
      else if c = 't' then
        (scanLiteral ['r', 'u', 'e'] rest).map fun r => (JValue.bool true, r)
      else if c = 'f' then
        (scanLiteral ['a', 'l', 's', 'e'] rest).map fun r => (JValue.bool false, r)
      else if c = 'n' then
        (scanLiteral ['u', 'l', 'l'] rest).map fun r => (JValue.null, r)
      else (scanNumber (c :: rest)).map fun r => (JValue.number r.1, r.2)

/-- The elements of an array from the head of an element on (white space
skipped): values separated by commas up to the closing bracket; what follows
the bracket is returned. -/
def parseElements : Nat → Nat → List Char → Option (List Char)
  | 0, _, _ => none
  | fuel + 1, depth, cs =>
    match parseValue fuel depth cs with
    | none => none
    | some (_, rest) =>
      match skipSpace rest with
      | [] => none
      | d :: rest1 =>
        if d = ',' then parseElements fuel depth (skipSpace rest1)
        else if d = ']' then some rest1
        else none

/-- The members of an object from the head of a key on (white space skipped):
`"key" : value` pairs separated by commas up to the closing brace.  The pairs
read so far are in `acc`; the result lists all pairs in input order, and what
follows the brace. -/
def parseMembers : Nat → Nat → List Char → List (List Char × JValue) →
    Option (List (List Char × JValue) × List Char)
  | 0, _, _, _ => none
  | fuel + 1, depth, cs, acc =>
    match cs with
    | [] => none
    | q :: rest =>
      if q = '"' then
        match parseString (rest.length + 1) rest [] with
        | none => none
        | some (key, rest1) =>
          match skipSpace rest1 with
          | [] => none
          | colon :: rest2 =>
            if colon = ':' then
              match parseValue fuel depth (skipSpace rest2) with
              | none => none
              | some (v, rest3) =>
                match skipSpace rest3 with
                | [] => none
                | d :: rest4 =>
                  if d = ',' then parseMembers fuel depth (skipSpace rest4) (acc ++ [(key, v)])
                  else if d = '\x7d' then some (acc ++ [(key, v)], rest4)
                  else none
            else none
      else none

end

/-- Go's `strconv.ParseUint(s, 10, _)` without its size check: the value of a
non-empty string of decimal digits, read into `acc`. -/
def parseDigits : List Char → Nat → Option Nat
  | [], acc => some acc
  | c :: cs, acc => if isDigit c then parseDigits cs (acc * 10 + (c.toNat - 48)) else none

/-- Go's `strconv.ParseInt(s, 10, 64)`: an optional sign, decimal digits, and a
value within `int64`; `none` stands for its error. -/
def parseInt (s : List Char) : Option Int :=
  match s with
  | [] => none
  | c :: rest =>
    if c = '-' then
      match rest with
      | [] => none
      | _ :: _ =>
        match parseDigits rest 0 with
        | some u => if u ≤ 2 ^ 63 then some (-(u : Int)) else none
        | none => none
    else if c = '+' then
      match rest with
      | [] => none
      | _ :: _ =>
        match parseDigits rest 0 with
        | some u => if u < 2 ^ 63 then some (u : Int) else none
        | none => none
    else
      match parseDigits (c :: rest) 0 with
      | some u => if u < 2 ^ 63 then some (u : Int) else none
      | none => none

/-- The folding of a key that the decoder applies before its case-insensitive
comparison with a field name: ASCII letters go to upper case; of the other
characters only the two whose case orbit holds an ASCII letter (the Kelvin
sign and the long s) are moved, which is all that a comparison with an ASCII
field name can observe. -/
def foldName (key : List Char) : List Char :=
  key.map fun c =>
    if 97 ≤ c.toNat ∧ c.toNat ≤ 122 then Char.ofNat (c.toNat - 32)
    else if c.toNat = 0x212A then 'K'
    else if c.toNat = 0x17F then 'S'
    else c

/-- Whether an object key names the struct field tagged `field`: exactly, or
else after folding. -/
def keyMatches (field key : List Char) : Bool :=
  key = field ∨ foldName key = foldName field

/-- Store the members of an object into the field: `cur` is the field's value
so far and `failed` whether a type error has been saved.  A member of another
name is skipped; for a matching member a number that `ParseInt` accepts is
stored, `null` changes nothing, anything else saves a type error and decoding
goes on. -/
def storeMembers (field : List Char) : List (List Char × JValue) → Int → Bool → Int × Bool
  | [], cur, failed => (cur, failed)
  | (key, v) :: ms, cur, failed =>
    if keyMatches field key then
      match v with
      | JValue.number lit =>
        match parseInt lit with
        | some x => storeMembers field ms x failed
        | none => storeMembers field ms cur true
      | JValue.null => storeMembers field ms cur failed
      | _ => storeMembers field ms cur true
    else storeMembers field ms cur failed

/-- The call `json.NewDecoder(r).Decode(&v)` for `v` a zero struct whose only field is an
`int64` tagged `field`, on a reader that yields `body`: the value of the
field afterwards, or the error. -/
def decodeStruct (field : List Char) (body : List Char) : Except JsonError Int :=
  match skipSpace body with
  | [] => Except.error JsonError.eof
  | c :: rest =>
    if c = '\x7b' then
      match skipSpace rest with
      | [] => Except.error JsonError.syntaxError
      | d :: rest1 =>
        if d = '\x7d' then Except.ok 0
        else
          match parseMembers (2 * rest.length + 2) 1 (d :: rest1) [] with
          | none => Except.error JsonError.syntaxError
          | some (ms, _) =>
            if (storeMembers field ms 0 false).2 then Except.error JsonError.typeMismatch
            else Except.ok (storeMembers field ms 0 false).1
    else
      match parseValue (2 * rest.length + 2) 0 (c :: rest) with
      | none => Except.error JsonError.syntaxError
      | some (JValue.null, _) => Except.ok 0
      | some (_, _) => Except.error JsonError.typeMismatch

/-- The service's decoder: `json.NewDecoder(req.Body).Decode(&reqBody)` with
`reqBody` of type `struct{ N int64 "json:n" }`. -/
def decodeReqBody (body : List Char) : Except JsonError Int := decodeStruct ['n'] body

/-- The client's decoder: `json.NewDecoder(resp.Body).Decode(&respBody)` with
`respBody` of type `struct{ F int64 "json:f" }`. -/
def decodeRespBody (body : List Char) : Except JsonError Int := decodeStruct ['f'] body

/-- A stand-in for the text of a decoding error, `err.Error()`, one for each kind;
the messages of the library carry more detail (the offending character, the
field). -/
def JsonError.text : JsonError → String
  | JsonError.eof => "EOF"
  | JsonError.syntaxError => "invalid JSON"
  | JsonError.typeMismatch => "json: cannot unmarshal value into Go struct field of type int64"

/-! ## Spans (`go.opentelemetry.io/otel/trace`)

The programs use the tracing API through `Start`, `AddEvent`, `SetAttributes`,
`SetStatus`, `RecordError` and `End`.  A tracer is modelled by the sequence of
these calls, each naming the span it is made on; what a span holds in the end
is obtained by replaying the calls with the behaviour of the SDK's recording
span, which ignores every call made on a span after its `End`. -/

/-- The status codes of `go.opentelemetry.io/otel/codes`. -/
inductive StatusCode where
  | Unset
  | Error
  | Ok
  deriving DecidableEq, Repr

/-- The numeric value of a status code; the SDK keeps the higher one. -/
def StatusCode.rank : StatusCode → Nat
  | StatusCode.Unset => 0
  | StatusCode.Error => 1
  | StatusCode.Ok => 2

/-- A call of the tracing API.  Spans are named by the number the tracer gave
them at `Start`. -/
inductive SpanOp where
  | Start (id : Nat) (parent : Option Nat) (tracer : String) (name : String)
  | AddEvent (id : Nat) (name : String)
  | SetAttributes (id : Nat) (key : String) (value : Int)
  | SetStatus (id : Nat) (code : StatusCode) (description : String)
  | RecordError (id : Nat) (message : String)
  | End (id : Nat)
  deriving DecidableEq, Repr

/-- The tracer provider of the process: the number of the next span and the
calls made so far, oldest first. -/
structure Tracer where
  nextId : Nat
  ops : List SpanOp
  deriving DecidableEq, Repr

/-- The call `otel.Tracer(tracer).Start(ctx, name)`, where `ctx` carries the span
`parent` (if any): the new span, which is also the span of the returned
context, and the tracer afterwards. -/
def Tracer.Start (t : Tracer) (parent : Option Nat) (tracer name : String) : Nat × Tracer :=
  (t.nextId, { nextId := t.nextId + 1, ops := t.ops ++ [SpanOp.Start t.nextId parent tracer name] })

/-- Record a call made on a span. -/
def Tracer.call (t : Tracer) (op : SpanOp) : Tracer := { t with ops := t.ops ++ [op] }

/-- What a span holds. -/
structure SpanData where
  name : String
  parent : Option Nat
  events : List String
  attributes : List (String × Int)
  errors : List String
  status : StatusCode
  description : String
  ended : Bool
  deriving DecidableEq, Repr

/-- Set an attribute: the value of an existing key is replaced. -/
def setAttribute (key : String) (value : Int) : List (String × Int) → List (String × Int)
  | [] => [(key, value)]
  | (k, v) :: rest => if k = key then (key, value) :: rest else (k, v) :: setAttribute key value rest

/-- The effect of one call on the data of span `id`.  Calls on other spans leave
it alone, and so does every call on a span that has ended. -/
def applyOp (id : Nat) (op : SpanOp) (cur : Option SpanData) : Option SpanData :=
  match op, cur with
  | SpanOp.Start i parent _ name, cur =>
    if i = id then
      some { name := name, parent := parent, events := [], attributes := [], errors := [],
             status := StatusCode.Unset, description := "", ended := false }
    else cur
  | _, none => none
  | SpanOp.AddEvent i e, some d =>
    if i = id ∧ d.ended = false then some { d with events := d.events ++ [e] } else some d
  | SpanOp.SetAttributes i k v, some d =>
    if i = id ∧ d.ended = false then some { d with attributes := setAttribute k v d.attributes }
    else some d
  | SpanOp.SetStatus i code desc, some d =>
    if i = id ∧ d.ended = false ∧ d.status.rank ≤ code.rank then
      some { d with status := code, description := if code = StatusCode.Error then desc else "" }
    else some d
  | SpanOp.RecordError i msg, some d =>
    if i = id ∧ d.ended = false then some { d with errors := d.errors ++ [msg] } else some d
  | SpanOp.End i, some d =>
    if i = id then some { d with ended := true } else some d

/-- Replay a sequence of calls on the data of span `id`. -/
def replay (id : Nat) : List SpanOp → Option SpanData → Option SpanData
  | [], cur => cur
  | op :: ops, cur => replay id ops (applyOp id op cur)

/-- The data of span `id` after the calls `ops`; `none` if it was never started. -/
def spanData (ops : List SpanOp) (id : Nat) : Option SpanData := replay id ops none

/-- The spans started by the calls `ops`, in order. -/
def startedSpans : List SpanOp → List Nat
  | [] => []
  | SpanOp.Start i _ _ _ :: ops => i :: startedSpans ops
  | _ :: ops => startedSpans ops

/-- How many times `End` is called on span `id`. -/
def endCount (id : Nat) (ops : List SpanOp) : Nat := ops.count (SpanOp.End id)

/-- Position of the first `End` of span `id` in `ops`. -/
def endIndex (id : Nat) (ops : List SpanOp) : Nat := ops.indexOf (SpanOp.End id)

/-- Position of the `Start` of span `id` in `ops`. -/
def startIndex (id : Nat) : List SpanOp → Nat
  | [] => 0
  | SpanOp.Start i _ _ _ :: ops => if i = id then 0 else startIndex id ops + 1
  | _ :: ops => startIndex id ops + 1

/-! ## The HTTP exchange (`net/http`) -/

/-- The constant `http.StatusBadRequest`. -/
def StatusBadRequest : Int := 400

/-- The constant `http.StatusOK`. -/
def StatusOK : Int := 200

/-- The state of an `http.ResponseWriter`: the status code of the header once it is
written, and the bytes handed to `Write`. -/
structure ResponseWriter where
  status : Option Int
  body : List Char
  deriving DecidableEq, Repr

/-- A writer nothing has been written to. -/
def ResponseWriter.new : ResponseWriter := { status := none, body := [] }

/-- The method `w.WriteHeader(code)`: the first call fixes the status. -/
def ResponseWriter.WriteHeader (w : ResponseWriter) (code : Int) : ResponseWriter :=
  match w.status with
  | none => { w with status := some code }
  | some _ => w

/-- The method `w.Write(data)`: writes the header with status 200 unless one is written. -/
def ResponseWriter.Write (w : ResponseWriter) (data : List Char) : ResponseWriter :=
  { status := some (w.status.getD StatusOK), body := w.body ++ data }

/-- The text of `fmt.Fprintf(w, "{"f": %d}", f)`. -/
def responseBody (f : Int) : List Char :=
  ['\x7b', '"', 'f', '"', ':', ' '] ++ formatInt f ++ ['\x7d']

/-- The text of `fmt.Sprintf("{"n": %d}", n)`. -/
def requestBody (n : Int) : List Char :=
  ['\x7b', '"', 'n', '"', ':', ' '] ++ formatInt n ++ ['\x7d']

/-! ## `calculateHandlerFunc` (cmd/fibonacci-service/main.go)

The handler is a function of the tracer, the span carried by the request's
context, the response writer, the bytes of the request body, and the error
(if any) that writing the response runs into.  The line logged on entry goes
to the process log, which is not part of this state. -/

/-- The handler returned by `calculateHandlerFunc()`, applied to one request. -/
def calculateHandlerFunc (t0 : Tracer) (ctx : Option Nat) (w : ResponseWriter)
    (body : List Char) (writeErr : Option String) : ResponseWriter × Tracer :=
  -- ctx, span = otel.Tracer("server").Start(ctx, "calculateHandler")
  let span := (t0.Start ctx "server" "calculateHandler").1
  let t1 := (t0.Start ctx "server" "calculateHandler").2
  let ctx1 : Option Nat := some span
  -- defer span.End(): the receiver is the span held by the variable at this point
  let deferred := span
  let out : ResponseWriter × Tracer :=
    let t2 := t1.call (SpanOp.AddEvent span "parsing request")
    match decodeReqBody body with
    | Except.error _ => (w.WriteHeader StatusBadRequest, t2)
    | Except.ok n =>
      let t3 := t2.call (SpanOp.AddEvent span "calculate fibonacci")
      -- the closure: `ctx, span = ...Start(ctx, "fibonacci")` assigns the handler's
      -- variable `span`; `defer span.End()` ends the span just started
      let span := (t3.Start ctx1 "server" "fibonacci").1
      let t4 := (t3.Start ctx1 "server" "fibonacci").2
      let r := fibonacci n
      let res : Int × Option String :=
        match r.2 with
        | some e => (0, some e)
        | none => (r.1, none)
      let t5 := t4.call (SpanOp.End span)
      -- back in the handler
      match res.2 with
      | some _ => (w.WriteHeader StatusBadRequest, t5)
      | none =>
        let f := res.1
        let t6 := t5.call (SpanOp.SetAttributes span "f" f)
        let t7 := t6.call (SpanOp.SetStatus span StatusCode.Ok "")
        let t8 := t7.call (SpanOp.AddEvent span "writing response")
        let w1 := w.Write (responseBody f)
        match writeErr with
        | some e =>
          (w1, (t8.call (SpanOp.RecordError span e)).call (SpanOp.SetStatus span StatusCode.Error e))
        | none => (w1, t8)
  (out.1, out.2.call (SpanOp.End deferred))

/-! ## `callFibonacciService` (cmd/load-generator/main.go) -/

/-- An outgoing HTTP request. -/
structure Request where
  method : String
  url : String
  header : List (String × String)
  body : List Char
  ctx : Option Nat
  deriving DecidableEq, Repr

/-- An HTTP response as the client sees it. -/
structure Response where
  StatusCode : Int
  Body : List Char
  deriving DecidableEq, Repr

/-- What the client's surroundings decide: the configured base URL, the error of
`http.NewRequestWithContext` (if it fails), and the outcome of `client.Do`. -/
structure ClientEnv where
  baseUrl : String
  newRequestErr : Option String
  Do : Request → Except String Response

/-- The message of `fmt.Errorf("the fibonacci-service returned a non 200 response: %d", code)`. -/
def non200Error (code : Int) : String :=
  String.mk ("the fibonacci-service returned a non 200 response: ".toList ++ formatInt code)

/-- Record an error on a span and set its status, as every failing step of the
client does: `span.RecordError(err); span.SetStatus(codes.Error, err.Error())`. -/
def failSpan (t : Tracer) (span : Nat) (err : String) : Tracer :=
  (t.call (SpanOp.RecordError span err)).call (SpanOp.SetStatus span StatusCode.Error err)

/-- The function `callFibonacciService(ctx, n) (_ int64, err error)`. -/
def callFibonacciService (env : ClientEnv) (t0 : Tracer) (ctx : Option Nat) (n : Int) :
    (Int × Option String) × Tracer :=
  let span := (t0.Start ctx "client" "call fibonacci-service").1
  let t1 := (t0.Start ctx "client" "call fibonacci-service").2
  let ctx1 : Option Nat := some span
  let url := env.baseUrl ++ "/calculate"
  let t2 := t1.call (SpanOp.SetAttributes span "n" n)
  let body := requestBody n
  let out : (Int × Option String) × Tracer :=
    match env.newRequestErr with
    | some e =>
      let err := "couldn't create a request to the fibonacci-service: " ++ e
      ((0, some err), failSpan t2 span err)
    | none =>
      let req : Request :=
        { method := "POST", url := url, header := [("Content-Type", "application/json")],
          body := body, ctx := ctx1 }
      match env.Do req with
      | Except.error e =>
        let err := "couldn't call the fibonacci-service: " ++ e
        ((0, some err), failSpan t2 span err)
      | Except.ok resp =>
        if resp.StatusCode ≠ StatusOK then
          let err := non200Error resp.StatusCode
          ((0, some err), failSpan t2 span err)
        else
          match decodeRespBody resp.Body with
          | Except.error e =>
            let err := "couldn't decode the fibonacci-service response: " ++ e.text
            ((0, some err), failSpan t2 span err)
          | Except.ok f =>
            ((f, none),
              (t2.call (SpanOp.SetAttributes span "f" f)).call (SpanOp.SetStatus span StatusCode.Ok ""))
  (out.1, out.2.call (SpanOp.End span))

/-! ## `OtelHandler.Handle` (telemetry/telemetry.go) -/

/-- An identifier of the tracing API, an array of bytes (16 for a trace, 8 for
a span). -/
structure TraceBytes where
  bytes : List Nat
  deriving DecidableEq, Repr

/-- An identifier is valid unless all its bytes are zero (`IsValid`). -/
def TraceBytes.IsValid (t : TraceBytes) : Bool := t.bytes.any fun b => b ≠ 0

/-- A lower-case hexadecimal digit. -/
def hexDigit (d : Nat) : Char := if d < 10 then Char.ofNat (48 + d) else Char.ofNat (87 + d)

/-- The string form of an identifier: two hexadecimal digits a byte (`String`). -/
def TraceBytes.String (t : TraceBytes) : String :=
  String.mk (t.bytes.flatMap fun b => [hexDigit (b / 16 % 16), hexDigit (b % 16)])

/-- The identifiers of a span (`trace.SpanContext`). -/
structure SpanContext where
  traceID : TraceBytes
  spanID : TraceBytes
  deriving DecidableEq, Repr

/-- The zero `SpanContext`, which a context without a span yields. -/
def SpanContext.empty : SpanContext :=
  { traceID := { bytes := List.replicate 16 0 }, spanID := { bytes := List.replicate 8 0 } }

/-- The method `HasTraceID`. -/
def SpanContext.HasTraceID (sc : SpanContext) : Bool := sc.traceID.IsValid

/-- The method `HasSpanID`. -/
def SpanContext.HasSpanID (sc : SpanContext) : Bool := sc.spanID.IsValid

/-- A `context.Context`, as far as logging looks into it: the identifiers of the
active span, if there is one. -/
structure Context where
  span : Option SpanContext
  deriving DecidableEq, Repr

/-- The function `trace.SpanContextFromContext`. -/
def SpanContextFromContext (ctx : Context) : SpanContext :=
  match ctx.span with
  | some sc => sc
  | none => SpanContext.empty

/-- The value of a log attribute. -/
inductive Value where
  | string (s : String)
  | int64 (i : Int)
  | any (text : String)
  deriving DecidableEq, Repr

/-- A key-value pair of a log record (`slog.Attr`). -/
structure Attr where
  key : String
  value : Value
  deriving DecidableEq, Repr

/-- A log record (`slog.Record`): time, message, level, program counter and the
attributes in the order they were added. -/
structure Record where
  time : Nat
  message : String
  level : Int
  pc : Nat
  attrs : List Attr
  deriving DecidableEq, Repr

/-- The method `rec.AddAttrs(attrs...)`: the attributes are appended. -/
def Record.AddAttrs (r : Record) (attrs : List Attr) : Record :=
  { r with attrs := r.attrs ++ attrs }

/-- The constructor `slog.String(key, value)`. -/
def slogString (key value : String) : Attr := { key := key, value := Value.string value }

/-- The key `traceIDKey`. -/
def traceIDKey : String := "traceId"

/-- The key `spanIDKey`. -/
def spanIDKey : String := "spanId"

/-- The method `OtelHandler.Handle(ctx, rec)` of a handler wrapping the handler `inner`. -/
def OtelHandler.Handle (inner : Context → Record → Option String) (ctx : Context)
    (rec : Record) : Option String :=
  let spanCtx := SpanContextFromContext ctx
  let rec1 :=
    if spanCtx.HasTraceID then rec.AddAttrs [slogString traceIDKey spanCtx.traceID.String]
    else rec
  let rec2 :=
    if spanCtx.HasSpanID then rec1.AddAttrs [slogString spanIDKey spanCtx.spanID.String]
    else rec1
  inner ctx rec2

/-! ## The calls `calculateHandlerFunc` makes on each way through it -/

/-- The calls the handler makes when the body does not decode. -/
def opsDecodeError (m : Nat) (ctx : Option Nat) : List SpanOp :=
  [SpanOp.Start m ctx "server" "calculateHandler",
   SpanOp.AddEvent m "parsing request",
   SpanOp.End m]

/-- The calls the handler makes when `fibonacci` returns an error. -/
def opsComputeError (m : Nat) (ctx : Option Nat) : List SpanOp :=
  [SpanOp.Start m ctx "server" "calculateHandler",
   SpanOp.AddEvent m "parsing request",
   SpanOp.AddEvent m "calculate fibonacci",
   SpanOp.Start (m + 1) (some m) "server" "fibonacci",
   SpanOp.End (m + 1),
   SpanOp.End m]

/-- The calls the handler makes when `fibonacci` returns `f`, the write of the
response ending in `writeErr`. -/
def opsSuccess (m : Nat) (ctx : Option Nat) (f : Int) (writeErr : Option String) :
    List SpanOp :=
  [SpanOp.Start m ctx "server" "calculateHandler",
   SpanOp.AddEvent m "parsing request",
   SpanOp.AddEvent m "calculate fibonacci",
   SpanOp.Start (m + 1) (some m) "server" "fibonacci",
   SpanOp.End (m + 1),
   SpanOp.SetAttributes (m + 1) "f" f,
   SpanOp.SetStatus (m + 1) StatusCode.Ok "",
   SpanOp.AddEvent (m + 1) "writing response"] ++
  (match writeErr with
   | some e => [SpanOp.RecordError (m + 1) e, SpanOp.SetStatus (m + 1) StatusCode.Error e]
   | none => []) ++
  [SpanOp.End m]

/-! ## Lemmas on `fibonacci` -/

theorem fibSpec_eq_fib (n : Nat) : fibSpec n = Nat.fib n := by
  induction n using Nat.strong_induction_on with
  | _ n ih =>
    match n with
    | 0 => rfl
    | 1 => rfl
    | k + 2 =>
      rw [fibSpec, ih (k + 1) (by omega), ih k (by omega), Nat.fib_add_two]
      omega

theorem wrap64_of_isInt64 {x : Int} (h : isInt64 x) : wrap64 x = x := by
  unfold isInt64 minInt64 maxInt64 at h
  unfold wrap64
  rw [Int.emod_eq_of_lt (by omega) (by omega)]
  omega

theorem fib_92_lt : Nat.fib 92 < 2 ^ 63 := by norm_num

theorem fib_93_gt : 2 ^ 63 ≤ Nat.fib 93 := by norm_num

theorem fibSpec_lt_of_le_92 {k : Nat} (h : k ≤ 92) : fibSpec k < 2 ^ 63 := by
  rw [fibSpec_eq_fib]
  exact lt_of_le_of_lt (Nat.fib_mono h) fib_92_lt

theorem fibSpec_ge_of_ge_93 {k : Nat} (h : 93 ≤ k) : 2 ^ 63 ≤ fibSpec k := by
  rw [fibSpec_eq_fib]
  exact le_trans fib_93_gt (Nat.fib_mono h)

theorem isInt64_fibSpec {k : Nat} (h : k ≤ 92) : isInt64 (fibSpec k : Int) := by
  have hb := fibSpec_lt_of_le_92 h
  unfold isInt64 minInt64 maxInt64
  have : ((fibSpec k : Nat) : Int) < 2 ^ 63 := by exact_mod_cast hb
  omega

/-- Loop invariant of `fibLoop`: entered at `i = j + 2` with the accumulators at
`f(j)` and `f(j+1)`, after `k` iterations that stay below `n` the accumulators
are `f(j+k)` and `f(j+k+1)`. -/
theorem fibLoop_spec (n : Int) (k : Nat) : ∀ (j : Nat), ((j + k + 2 : Nat) : Int) ≤ n →
    j + k + 2 ≤ 92 →
    fibLoop n k ((j + 2 : Nat) : Int) (fibSpec j) (fibSpec (j + 1))
      = ((fibSpec (j + k) : Int), (fibSpec (j + k + 1) : Int)) := by
  induction k with
  | zero => intro j _ _; simp [fibLoop]
  | succ k ih =>
    intro j hn hj
    have hlt : ((j + 2 : Nat) : Int) < n := by omega
    have hi : wrap64 (((j + 2 : Nat) : Int) + 1) = ((j + 1 + 2 : Nat) : Int) := by
      rw [wrap64_of_isInt64]
      · push_cast; ring
      · unfold isInt64 minInt64 maxInt64; omega
    have hs : wrap64 ((fibSpec (j + 1) : Int) + (fibSpec j : Int))
        = (fibSpec (j + 1 + 1) : Int) := by
      have hb := isInt64_fibSpec (k := j + 2) (by omega)
      have he : fibSpec (j + 2) = fibSpec (j + 1) + fibSpec j := by rw [fibSpec]
      rw [he] at hb
      push_cast at hb
      rw [wrap64_of_isInt64 hb, show j + 1 + 1 = j + 2 from rfl, he]
      push_cast; ring
    rw [fibLoop, if_pos hlt, hi, hs]
    have := ih (j + 1) (by omega) (by omega)
    rw [this, show j + 1 + k = j + (k + 1) by omega]

/-- The state of the loop of `fibonacci` after `k` iterations. -/
theorem fibLoop_from_start (n : Int) (k : Nat) (hk : ((k + 2 : Nat) : Int) ≤ n) (h92 : k + 2 ≤ 92) :
    fibLoop n k 2 0 1 = ((fibSpec k : Int), (fibSpec (k + 1) : Int)) := by
  have := fibLoop_spec n k 0 (by omega) (by omega)
  simpa [fibSpec] using this

theorem fibonacci_in_range (n : Int) (h2 : 2 ≤ n) (h90 : n ≤ 90) :
    fibonacci n = ((fibSpec n.toNat : Int), none) := by
  obtain ⟨m, rfl⟩ : ∃ m : Nat, n = ((m + 2 : Nat) : Int) := ⟨(n - 2).toNat, by omega⟩
  have hm : m + 2 ≤ 90 := by omega
  have hloop := fibLoop_from_start ((m + 2 : Nat) : Int) m (le_refl _) (by omega)
  have hfuel : (((m + 2 : Nat) : Int) - 2).toNat = m := by omega
  have hidx : (((m + 2 : Nat) : Int)).toNat = m + 2 := by omega
  have hsum : (fibSpec m : Int) + (fibSpec (m + 1) : Int) = (fibSpec (m + 2) : Int) := by
    rw [show fibSpec (m + 2) = fibSpec (m + 1) + fibSpec m by rw [fibSpec]]
    push_cast; ring
  unfold fibonacci
  rw [if_neg (by omega), if_neg (by omega)]
  simp only [hfuel, hloop, hidx, hsum]
  rw [wrap64_of_isInt64 (isInt64_fibSpec (by omega))]

theorem fibonacci_of_le_one (n : Int) (h : n ≤ 1) : fibonacci n = (n, none) := by
  unfold fibonacci
  rw [if_pos h]

theorem fibonacci_of_gt_90 (n : Int) (h : 90 < n) :
    fibonacci n = (0, some (unsupportedError n)) := by
  unfold fibonacci
  rw [if_neg (by omega), if_pos (by omega)]

theorem fibonacci_err_of_le_90 (n : Int) (h : n ≤ 90) : (fibonacci n).2 = none := by
  by_cases h1 : n ≤ 1
  · rw [fibonacci_of_le_one n h1]
  · rw [fibonacci_in_range n (by omega) h]

theorem fibonacci_err_of_gt_90 (n : Int) (h : 90 < n) : (fibonacci n).2 ≠ none := by
  rw [fibonacci_of_gt_90 n h]
  simp

/-! ## Theorems on `fibonacci` -/

/-- C1: for every `n` with `2 ≤ n ≤ 90`, `fibonacci n` returns no error and the
`n`-th term of the sequence `f(0)=0`, `f(1)=1`, `f(k)=f(k-1)+f(k-2)`; the
term lies within `int64`, and so does, unreduced, every sum of the two
accumulators that the loop or the final `return` computes (the sum formed in
the state reached after `k ≤ n - 2` iterations), so that no addition wraps
around. -/
theorem fibonacci_computes_sequence (n : Int) (h2 : 2 ≤ n) (h90 : n ≤ 90) :
    fibonacci n = ((fibSpec n.toNat : Int), none) ∧
    isInt64 (fibSpec n.toNat : Int) ∧
    ∀ k : Nat, k ≤ (n - 2).toNat →
      (fibLoop n k 2 0 1).2 + (fibLoop n k 2 0 1).1 = (fibSpec (k + 2) : Int) ∧
      isInt64 ((fibLoop n k 2 0 1).2 + (fibLoop n k 2 0 1).1) := by
  refine ⟨fibonacci_in_range n h2 h90, isInt64_fibSpec (by omega), ?_⟩
  intro k hk
  have hloop := fibLoop_from_start n k (by omega) (by omega)
  have hsum : (fibSpec (k + 1) : Int) + (fibSpec k : Int) = (fibSpec (k + 2) : Int) := by
    rw [show fibSpec (k + 2) = fibSpec (k + 1) + fibSpec k by rw [fibSpec]]
    push_cast; ring
  rw [hloop]
  simp only [hsum]
  exact ⟨trivial, isInt64_fibSpec (by omega)⟩

/-- C1 at `n = 10` and `n = 50`: `fibonacci(10) = 55` and
`fibonacci(50) = 12586269025`, both with no error. -/
theorem fibonacci_computes_sequence_witness :
    fibonacci 10 = (55, none) ∧ fibonacci 50 = (12586269025, none) := by
  have h10 := (fibonacci_computes_sequence 10 (by decide) (by decide)).1
  have h50 := (fibonacci_computes_sequence 50 (by decide) (by decide)).1
  have e10 : fibSpec (10 : Int).toNat = 55 := by
    rw [show (10 : Int).toNat = 10 from rfl, fibSpec_eq_fib]; norm_num
  have e50 : fibSpec (50 : Int).toNat = 12586269025 := by
    rw [show (50 : Int).toNat = 50 from rfl, fibSpec_eq_fib]; norm_num
  rw [e10] at h10
  rw [e50] at h50
  exact ⟨h10, h50⟩

/-- C2: for every `n ≤ 1` (zero, one and every negative number), `fibonacci n`
returns `n` itself and no error. -/
theorem fibonacci_le_one (n : Int) (h : n ≤ 1) : fibonacci n = (n, none) :=
  fibonacci_of_le_one n h

/-- C2 at `n = -7`. -/
theorem fibonacci_le_one_witness : (-7 : Int) ≤ 1 ∧ fibonacci (-7) = (-7, none) :=
  ⟨by decide, fibonacci_le_one (-7) (by decide)⟩

/-- C3: `fibonacci n` returns an error exactly when `n > 90`; then the value
returned with it is `0` (and the error is the "unsupported Fibonacci number"
one), and for `n ≤ 90` the error is `nil`. -/
theorem fibonacci_error_iff (n : Int) :
    ((fibonacci n).2 ≠ none ↔ 90 < n) ∧
    (90 < n → fibonacci n = (0, some (unsupportedError n))) ∧
    (n ≤ 90 → (fibonacci n).2 = none) := by
  refine ⟨⟨?_, ?_⟩, fibonacci_of_gt_90 n, fibonacci_err_of_le_90 n⟩
  · intro h
    by_contra hn
    exact h (fibonacci_err_of_le_90 n (by omega))
  · intro h
    rw [fibonacci_of_gt_90 n h]
    simp

/-- C10, as stated, fails at `n = 91`: `fibonacci` rejects 91, yet the 91st
term fits in a signed 64-bit integer. -/
theorem fibonacci_rejects_91_without_overflow :
    (fibonacci 91).2 ≠ none ∧ ¬ ((fibSpec 91 : Int) > maxInt64) := by
  refine ⟨fibonacci_err_of_gt_90 91 (by decide), ?_⟩
  have := fibSpec_lt_of_le_92 (k := 91) (by omega)
  have h : ((fibSpec 91 : Nat) : Int) < 2 ^ 63 := by exact_mod_cast this
  unfold maxInt64
  omega

/-- C10, amended: every `n > 90` is rejected by `fibonacci`, and the `n`-th
term of the sequence exceeds `2^63 - 1` exactly when `n > 92`; the terms of
the rejected inputs 91 and 92 still fit. -/
theorem fibonacci_rejected_overflow_iff (n : Int) (h : 90 < n) :
    (fibonacci n).2 ≠ none ∧ ((fibSpec n.toNat : Int) > maxInt64 ↔ 92 < n) := by
  refine ⟨fibonacci_err_of_gt_90 n h, ?_⟩
  unfold maxInt64
  constructor
  · intro hov
    by_contra hn
    have := fibSpec_lt_of_le_92 (k := n.toNat) (by omega)
    have h' : ((fibSpec n.toNat : Nat) : Int) < 2 ^ 63 := by exact_mod_cast this
    omega
  · intro hn
    have := fibSpec_ge_of_ge_93 (k := n.toNat) (by omega)
    have h' : (2 : Int) ^ 63 ≤ ((fibSpec n.toNat : Nat) : Int) := by exact_mod_cast this
    omega

/-- C10, amended, at `n = 93`, the first term that overflows. -/
theorem fibonacci_rejected_overflow_iff_witness :
    (90 : Int) < 93 ∧ (fibonacci 93).2 ≠ none ∧ (fibSpec (93 : Int).toNat : Int) > maxInt64 :=
  ⟨by decide, (fibonacci_rejected_overflow_iff 93 (by decide)).1,
    (fibonacci_rejected_overflow_iff 93 (by decide)).2.2 (by decide)⟩

/-! ## Lemmas on `calculateHandlerFunc`: the three ways through the handler -/

theorem handler_decode_error (t0 : Tracer) (ctx : Option Nat) (w : ResponseWriter)
    (body : List Char) (writeErr : Option String) (e : JsonError)
    (h : decodeReqBody body = Except.error e) :
    calculateHandlerFunc t0 ctx w body writeErr =
      (w.WriteHeader StatusBadRequest,
        { nextId := t0.nextId + 1, ops := t0.ops ++ opsDecodeError t0.nextId ctx }) := by
  simp [calculateHandlerFunc, h, Tracer.Start, Tracer.call, opsDecodeError]

theorem handler_compute_error (t0 : Tracer) (ctx : Option Nat) (w : ResponseWriter)
    (body : List Char) (writeErr : Option String) (n : Int)
    (h : decodeReqBody body = Except.ok n) (hn : 90 < n) :
    calculateHandlerFunc t0 ctx w body writeErr =
      (w.WriteHeader StatusBadRequest,
        { nextId := t0.nextId + 2, ops := t0.ops ++ opsComputeError t0.nextId ctx }) := by
  have hf := fibonacci_of_gt_90 n hn
  simp [calculateHandlerFunc, h, hf, Tracer.Start, Tracer.call, opsComputeError]

theorem handler_success (t0 : Tracer) (ctx : Option Nat) (w : ResponseWriter)
    (body : List Char) (writeErr : Option String) (n : Int)
    (h : decodeReqBody body = Except.ok n) (hn : n ≤ 90) :
    calculateHandlerFunc t0 ctx w body writeErr =
      (w.Write (responseBody (fibonacci n).1),
        { nextId := t0.nextId + 2,
          ops := t0.ops ++ opsSuccess t0.nextId ctx (fibonacci n).1 writeErr }) := by
  have hf := fibonacci_err_of_le_90 n hn
  cases writeErr <;>
    simp [calculateHandlerFunc, h, hf, Tracer.Start, Tracer.call, opsSuccess]

/-! ## Theorems on `calculateHandlerFunc` -/

/-- C4: the response of the handler, on a fresh response writer, for every
request body and whatever becomes of the write: when the body fails to decode
the status is 400 and nothing is written to the body; when it decodes to an
`n > 90` the status is 400 and nothing is written to the body; otherwise the
status is 200 and the bytes handed to the writer are the text `{"f": v}` with
`v` the value `fibonacci n` returns. -/
theorem calculateHandlerFunc_response (t0 : Tracer) (ctx : Option Nat) (body : List Char)
    (writeErr : Option String) :
    (∀ e, decodeReqBody body = Except.error e →
      (calculateHandlerFunc t0 ctx ResponseWriter.new body writeErr).1
        = { status := some 400, body := [] }) ∧
    (∀ n, decodeReqBody body = Except.ok n → 90 < n →
      (calculateHandlerFunc t0 ctx ResponseWriter.new body writeErr).1
        = { status := some 400, body := [] }) ∧
    (∀ n, decodeReqBody body = Except.ok n → n ≤ 90 →
      (calculateHandlerFunc t0 ctx ResponseWriter.new body writeErr).1
        = { status := some 200, body := responseBody (fibonacci n).1 }) := by
  refine ⟨?_, ?_, ?_⟩
  · intro e h
    rw [handler_decode_error t0 ctx _ body writeErr e h]
    rfl
  · intro n h hn
    rw [handler_compute_error t0 ctx _ body writeErr n h hn]
    rfl
  · intro n h hn
    rw [handler_success t0 ctx _ body writeErr n h hn]
    simp [ResponseWriter.Write, ResponseWriter.new, StatusOK]

/-- C4 on three bodies: `{"n": 91}` is answered with 400 and no body, the
malformed `{"n": ` with 400 and no body, and `{"n": 10}` with 200 and
`{"f": 55}`. -/
theorem calculateHandlerFunc_response_witness :
    (calculateHandlerFunc (Tracer.mk 0 []) none ResponseWriter.new
        ['\x7b', '"', 'n', '"', ':', ' ', '9', '1', '\x7d'] none).1
      = { status := some 400, body := [] } ∧
    (calculateHandlerFunc (Tracer.mk 0 []) none ResponseWriter.new
        ['\x7b', '"', 'n', '"', ':', ' '] none).1
      = { status := some 400, body := [] } ∧
    (calculateHandlerFunc (Tracer.mk 0 []) none ResponseWriter.new
        ['\x7b', '"', 'n', '"', ':', ' ', '1', '0', '\x7d'] none).1
      = { status := some 200, body := ['\x7b', '"', 'f', '"', ':', ' ', '5', '5', '\x7d'] } :=
  ⟨(calculateHandlerFunc_response (Tracer.mk 0 []) none
      ['\x7b', '"', 'n', '"', ':', ' ', '9', '1', '\x7d'] none).2.1 91 rfl (by decide),
   (calculateHandlerFunc_response (Tracer.mk 0 []) none
      ['\x7b', '"', 'n', '"', ':', ' '] none).1 JsonError.syntaxError rfl,
   (calculateHandlerFunc_response (Tracer.mk 0 []) none
      ['\x7b', '"', 'n', '"', ':', ' ', '1', '0', '\x7d'] none).2.2 10 rfl (by decide)⟩

/-- C7, as the code has it.  On a fresh tracer the handler span is span 0 and the
computation span is span 1.  For every request whose body decodes, whether
`fibonacci` then succeeds or fails and whether or not the write fails, the
computation span holds nothing when the handler returns: no attribute, no
recorded error, no event, and the status unset.  When `fibonacci` fails the
handler makes no call that records the error or sets a status; when it
succeeds the handler sets the attribute `f` and the status only after the
computation span has ended, and calls on an ended span are ignored. -/
theorem calculateHandlerFunc_child_span_outcome (ctx : Option Nat) (w : ResponseWriter)
    (body : List Char) (writeErr : Option String) (n : Int)
    (h : decodeReqBody body = Except.ok n) :
    spanData (calculateHandlerFunc (Tracer.mk 0 []) ctx w body writeErr).2.ops 1
      = some { name := "fibonacci", parent := some 0, events := [], attributes := [],
               errors := [], status := StatusCode.Unset, description := "", ended := true } := by
  by_cases hn : 90 < n
  · rw [handler_compute_error _ ctx w body writeErr n h hn]
    simp [opsComputeError, spanData, replay, applyOp]
  · rw [handler_success _ ctx w body writeErr n h (by omega)]
    cases writeErr <;> simp [opsSuccess, spanData, replay, applyOp]

/-- C7 on the requests `{"n": 91}`, for which `fibonacci` fails, and `{"n": 10}`,
for which it returns 55: the data of the computation span afterwards, and the
calls the handler made. -/
theorem calculateHandlerFunc_child_span_outcome_witness :
    spanData (calculateHandlerFunc (Tracer.mk 0 []) none ResponseWriter.new
        ['\x7b', '"', 'n', '"', ':', ' ', '9', '1', '\x7d'] none).2.ops 1
      = some { name := "fibonacci", parent := some 0, events := [], attributes := [],
               errors := [], status := StatusCode.Unset, description := "", ended := true } ∧
    spanData (calculateHandlerFunc (Tracer.mk 0 []) none ResponseWriter.new
        ['\x7b', '"', 'n', '"', ':', ' ', '1', '0', '\x7d'] none).2.ops 1
      = some { name := "fibonacci", parent := some 0, events := [], attributes := [],
               errors := [], status := StatusCode.Unset, description := "", ended := true } ∧
    (calculateHandlerFunc (Tracer.mk 0 []) none ResponseWriter.new
        ['\x7b', '"', 'n', '"', ':', ' ', '9', '1', '\x7d'] none).2.ops
      = [SpanOp.Start 0 none "server" "calculateHandler",
         SpanOp.AddEvent 0 "parsing request",
         SpanOp.AddEvent 0 "calculate fibonacci",
         SpanOp.Start 1 (some 0) "server" "fibonacci",
         SpanOp.End 1,
         SpanOp.End 0] ∧
    (calculateHandlerFunc (Tracer.mk 0 []) none ResponseWriter.new
        ['\x7b', '"', 'n', '"', ':', ' ', '1', '0', '\x7d'] none).2.ops
      = [SpanOp.Start 0 none "server" "calculateHandler",
         SpanOp.AddEvent 0 "parsing request",
         SpanOp.AddEvent 0 "calculate fibonacci",
         SpanOp.Start 1 (some 0) "server" "fibonacci",
         SpanOp.End 1,
         SpanOp.SetAttributes 1 "f" 55,
         SpanOp.SetStatus 1 StatusCode.Ok "",
         SpanOp.AddEvent 1 "writing response",
         SpanOp.End 0] :=
  ⟨calculateHandlerFunc_child_span_outcome none ResponseWriter.new
      ['\x7b', '"', 'n', '"', ':', ' ', '9', '1', '\x7d'] none 91 rfl,
   calculateHandlerFunc_child_span_outcome none ResponseWriter.new
      ['\x7b', '"', 'n', '"', ':', ' ', '1', '0', '\x7d'] none 10 rfl,
   rfl, rfl⟩

/-- C8: on every way through the handler (whatever the body decodes to and
whether or not the write fails) the handler starts the handler span, and on
the ways past decoding also the computation span; `End` is called exactly once
on every span it started, after the span's `Start`; the computation span,
when started, is started after and ended before the handler span; and the
last call the handler makes is the `End` of the handler span. -/
theorem calculateHandlerFunc_spans_ended (t0 : Tracer) (ctx : Option Nat) (w : ResponseWriter)
    (body : List Char) (writeErr : Option String) :
    ∃ ops, (calculateHandlerFunc t0 ctx w body writeErr).2.ops = t0.ops ++ ops ∧
      (startedSpans ops = [t0.nextId] ∨ startedSpans ops = [t0.nextId, t0.nextId + 1]) ∧
      (∀ id ∈ startedSpans ops, endCount id ops = 1 ∧ startIndex id ops < endIndex id ops) ∧
      (t0.nextId + 1 ∈ startedSpans ops →
        startIndex t0.nextId ops < startIndex (t0.nextId + 1) ops ∧
        endIndex (t0.nextId + 1) ops < endIndex t0.nextId ops) ∧
      ops.getLast? = some (SpanOp.End t0.nextId) := by
  cases h : decodeReqBody body with
  | error e =>
    refine ⟨opsDecodeError t0.nextId ctx, ?_, ?_⟩
    · rw [handler_decode_error t0 ctx w body writeErr e h]
    · simp [opsDecodeError, startedSpans, endCount, endIndex, startIndex, List.indexOf_cons]
  | ok n =>
    by_cases hn : 90 < n
    · refine ⟨opsComputeError t0.nextId ctx, ?_, ?_⟩
      · rw [handler_compute_error t0 ctx w body writeErr n h hn]
      · simp [opsComputeError, startedSpans, endCount, endIndex, startIndex, List.indexOf_cons]
    · refine ⟨opsSuccess t0.nextId ctx (fibonacci n).1 writeErr, ?_, ?_⟩
      · rw [handler_success t0 ctx w body writeErr n h (by omega)]
      · cases writeErr <;>
          simp [opsSuccess, startedSpans, endCount, endIndex, startIndex, List.indexOf_cons]

/-! ## Theorems on `callFibonacciService` -/

/-- The message for a non-200 response holds the words "non 200 response". -/
theorem non200Error_names_step (code : Int) :
    ∃ pre post : List Char,
      (non200Error code).data = pre ++ "non 200 response".toList ++ post :=
  ⟨"the fibonacci-service returned a ".toList, ':' :: ' ' :: formatInt code, by
    simp [non200Error]⟩

/-- C6: when the request is built and the service answers it with a response
whose status code is not 200, whatever the body of that response,
`callFibonacciService` returns the integer `0` together with an error, and the
message of the error is "the fibonacci-service returned a non 200 response: "
followed by the status code; the message so names the non-200 response as the step that
failed. -/
theorem callFibonacciService_non200 (env : ClientEnv) (t0 : Tracer) (ctx : Option Nat) (n : Int)
    (resp : Response) (hreq : env.newRequestErr = none)
    (hdo : env.Do { method := "POST", url := env.baseUrl ++ "/calculate",
                    header := [("Content-Type", "application/json")],
                    body := requestBody n, ctx := some t0.nextId } = Except.ok resp)
    (hcode : resp.StatusCode ≠ 200) :
    (callFibonacciService env t0 ctx n).1 = (0, some (non200Error resp.StatusCode)) ∧
    (non200Error resp.StatusCode).data
      = "the fibonacci-service returned a non 200 response: ".toList
          ++ formatInt resp.StatusCode ∧
    ∃ pre post : List Char,
      (non200Error resp.StatusCode).data = pre ++ "non 200 response".toList ++ post := by
  refine ⟨?_, rfl, non200Error_names_step _⟩
  simp [callFibonacciService, hreq, Tracer.Start, hdo, hcode, StatusOK]

/-- C6 for a service that answers every request with status 500 and a body that
would decode: the client returns `0` and the error "the fibonacci-service
returned a non 200 response: 500". -/
theorem callFibonacciService_non200_witness :
    (callFibonacciService
        { baseUrl := "http://fibonacci-service", newRequestErr := none,
          Do := fun _ => Except.ok { StatusCode := 500, Body := responseBody 5 } }
        (Tracer.mk 0 []) none 5).1
      = (0, some "the fibonacci-service returned a non 200 response: 500") :=
  (callFibonacciService_non200
      { baseUrl := "http://fibonacci-service", newRequestErr := none,
        Do := fun _ => Except.ok { StatusCode := 500, Body := responseBody 5 } }
      (Tracer.mk 0 []) none 5 { StatusCode := 500, Body := responseBody 5 }
      rfl rfl (by decide)).1

/-! ## Theorems on `OtelHandler.Handle` -/

theorem SpanContext_empty_invalid :
    SpanContext.empty.HasTraceID = false ∧ SpanContext.empty.HasSpanID = false :=
  ⟨rfl, rfl⟩

/-- C5: for every record and context.  When the context carries a span with a
valid trace identifier and a valid span identifier, the wrapped handler is
called, with the same context, on a record that has the attributes of the
input in their order followed by `traceId` and `spanId` with the string forms
of the two identifiers, and the time, message, level and program counter of
the input; the result of `Handle` is the wrapped handler's.  When the context
carries no span, the wrapped handler is called on the input record itself. -/
theorem OtelHandler_Handle_enriches (ctx : Context) (rec : Record) :
    (∀ sc, ctx.span = some sc → sc.traceID.IsValid = true → sc.spanID.IsValid = true →
      ∃ rec1 : Record,
        (∀ inner, OtelHandler.Handle inner ctx rec = inner ctx rec1) ∧
        rec1.attrs = rec.attrs ++
          [{ key := "traceId", value := Value.string sc.traceID.String },
           { key := "spanId", value := Value.string sc.spanID.String }] ∧
        rec1.time = rec.time ∧ rec1.message = rec.message ∧ rec1.level = rec.level ∧
        rec1.pc = rec.pc) ∧
    (ctx.span = none → ∀ inner, OtelHandler.Handle inner ctx rec = inner ctx rec) := by
  constructor
  · intro sc hsc ht hs
    refine ⟨{ rec with attrs := rec.attrs ++
        [{ key := "traceId", value := Value.string sc.traceID.String },
         { key := "spanId", value := Value.string sc.spanID.String }] }, ?_, rfl, rfl, rfl, rfl, rfl⟩
    intro inner
    simp [OtelHandler.Handle, SpanContextFromContext, hsc, SpanContext.HasTraceID,
      SpanContext.HasSpanID, ht, hs, Record.AddAttrs, slogString, traceIDKey, spanIDKey]
  · intro hnone inner
    simp [OtelHandler.Handle, SpanContextFromContext, hnone, SpanContext_empty_invalid.1,
      SpanContext_empty_invalid.2]

/-- C5 for a record with one attribute, logged under a span with identifiers
`0x00..01` and `0x00..ff`, and handed to a handler that reports the keys it
was given. -/
theorem OtelHandler_Handle_enriches_witness :
    OtelHandler.Handle (fun _ r => some (String.intercalate "," (r.attrs.map Attr.key)))
      { span := some { traceID := { bytes := List.replicate 15 0 ++ [1] },
                       spanID := { bytes := List.replicate 7 0 ++ [255] } } }
      { time := 0, message := "Calculate Fibonacci started", level := 0, pc := 0,
        attrs := [{ key := "n", value := Value.int64 5 }] }
      = some "n,traceId,spanId" := by
  obtain ⟨rec1, h, hattrs, -⟩ := (OtelHandler_Handle_enriches
      { span := some { traceID := { bytes := List.replicate 15 0 ++ [1] },
                       spanID := { bytes := List.replicate 7 0 ++ [255] } } }
      { time := 0, message := "Calculate Fibonacci started", level := 0, pc := 0,
        attrs := [{ key := "n", value := Value.int64 5 }] }).1 _ rfl rfl rfl
  rw [h, hattrs]
  rfl

/-! ## Lemmas on `%d` and the reading of numbers -/

theorem digitChar_isDigit {d : Nat} (h : d < 10) : isDigit (digitChar d) = true := by
  interval_cases d <;> rfl

theorem digitChar_toNat {d : Nat} (h : d < 10) : (digitChar d).toNat - 48 = d := by
  interval_cases d <;> rfl

theorem digitChar_ne_zero {d : Nat} (h : d < 10) (h0 : 0 < d) : digitChar d ≠ '0' := by
  interval_cases d <;> decide

theorem natDigits_append (fuel : Nat) : ∀ (n : Nat) (acc : List Char),
    natDigits fuel n acc = natDigits fuel n [] ++ acc := by
  induction fuel with
  | zero => intro n acc; simp [natDigits]
  | succ fuel ih =>
    intro n acc
    by_cases h : n < 10
    · simp [natDigits, h]
    · simp only [natDigits, if_neg h]
      rw [ih (n / 10) (digitChar (n % 10) :: acc), ih (n / 10) [digitChar (n % 10)]]
      simp

theorem natDigits_succ_of_ge (fuel n : Nat) (h : ¬ n < 10) :
    natDigits (fuel + 1) n [] = natDigits fuel (n / 10) [] ++ [digitChar (n % 10)] := by
  simp only [natDigits, if_neg h]
  exact natDigits_append fuel (n / 10) _

theorem natDigits_succ_of_lt (fuel n : Nat) (h : n < 10) :
    natDigits (fuel + 1) n [] = [digitChar n] := by
  simp [natDigits, h]

theorem natDigits_all_digits (fuel : Nat) : ∀ (n : Nat), ∀ c ∈ natDigits fuel n [],
    isDigit c = true := by
  induction fuel with
  | zero => intro n c hc; simp [natDigits] at hc
  | succ fuel ih =>
    intro n c hc
    by_cases h : n < 10
    · rw [natDigits_succ_of_lt fuel n h] at hc
      simp only [List.mem_singleton] at hc
      rw [hc]; exact digitChar_isDigit h
    · rw [natDigits_succ_of_ge fuel n h] at hc
      rcases List.mem_append.1 hc with h1 | h1
      · exact ih _ c h1
      · simp only [List.mem_singleton] at h1
        rw [h1]; exact digitChar_isDigit (Nat.mod_lt _ (by decide))

/-- With enough fuel the digits of a positive number start with a digit other
than `0`. -/
theorem natDigits_head (fuel : Nat) : ∀ (n : Nat), 0 < n → n < 10 ^ fuel →
    ∃ c tl, natDigits fuel n [] = c :: tl ∧ c ≠ '0' ∧ isDigit c = true ∧
      ∀ x ∈ tl, isDigit x = true := by
  induction fuel with
  | zero => intro n h0 h; simp at h; omega
  | succ fuel ih =>
    intro n h0 hlt
    by_cases h : n < 10
    · exact ⟨digitChar n, [], natDigits_succ_of_lt fuel n h, digitChar_ne_zero h h0,
        digitChar_isDigit h, by simp⟩
    · have hdiv : n / 10 < 10 ^ fuel := by
        rw [Nat.div_lt_iff_lt_mul (by decide)]
        rw [pow_succ] at hlt; exact hlt
      obtain ⟨c, tl, heq, hc0, hcd, htl⟩ := ih (n / 10) (by omega) hdiv
      refine ⟨c, tl ++ [digitChar (n % 10)], ?_, hc0, hcd, ?_⟩
      · rw [natDigits_succ_of_ge fuel n h, heq]; rfl
      · intro x hx
        rcases List.mem_append.1 hx with h1 | h1
        · exact htl x h1
        · simp only [List.mem_singleton] at h1
          rw [h1]; exact digitChar_isDigit (Nat.mod_lt _ (by decide))

/-- Reading back the digits written for `n`: the reader goes on after them with
`n` appended, in decimal, to what it had read. -/
theorem parseDigits_natDigits (fuel : Nat) : ∀ (n : Nat), n < 10 ^ fuel →
    ∃ p : Nat, ∀ (ys : List Char) (a : Nat),
      parseDigits (natDigits fuel n [] ++ ys) a = parseDigits ys (a * p + n) := by
  induction fuel with
  | zero =>
    intro n h
    refine ⟨1, fun ys a => ?_⟩
    have : n = 0 := by simpa using h
    simp [natDigits, this]
  | succ fuel ih =>
    intro n hlt
    by_cases h : n < 10
    · refine ⟨10, fun ys a => ?_⟩
      rw [natDigits_succ_of_lt fuel n h]
      simp [parseDigits, digitChar_isDigit h, digitChar_toNat h]
    · have hdiv : n / 10 < 10 ^ fuel := by
        rw [Nat.div_lt_iff_lt_mul (by decide)]
        rw [pow_succ] at hlt; exact hlt
      obtain ⟨p, hp⟩ := ih (n / 10) hdiv
      refine ⟨p * 10, fun ys a => ?_⟩
      have hm : n % 10 < 10 := Nat.mod_lt _ (by decide)
      rw [natDigits_succ_of_ge fuel n h, List.append_assoc, hp]
      simp only [List.singleton_append, parseDigits, digitChar_isDigit hm, digitChar_toNat hm,
        if_true]
      congr 1
      have := Nat.div_add_mod n 10
      nlinarith [this]

theorem lt_ten_pow_succ (n : Nat) : n < 10 ^ (n + 1) :=
  lt_trans (Nat.lt_pow_self (by decide) n) (Nat.pow_lt_pow_right (by decide) (Nat.lt_succ_self n))

theorem parseDigits_formatNat (n : Nat) : parseDigits (formatNat n) 0 = some n := by
  obtain ⟨p, hp⟩ := parseDigits_natDigits (n + 1) n (lt_ten_pow_succ n)
  have := hp [] 0
  simpa [formatNat, parseDigits] using this

theorem formatNat_all_digits (n : Nat) : ∀ c ∈ formatNat n, isDigit c = true :=
  natDigits_all_digits (n + 1) n

theorem formatNat_zero : formatNat 0 = ['0'] := rfl

theorem formatNat_pos (n : Nat) (h : 0 < n) :
    ∃ c tl, formatNat n = c :: tl ∧ c ≠ '0' ∧ isDigit c = true ∧ ∀ x ∈ tl, isDigit x = true :=
  natDigits_head (n + 1) n h (lt_ten_pow_succ n)

theorem spanDigits_append (ds : List Char) (c : Char) (rest : List Char)
    (hds : ∀ x ∈ ds, isDigit x = true) (hc : isDigit c = false) :
    spanDigits (ds ++ c :: rest) = (ds, c :: rest) := by
  induction ds with
  | nil => simp [spanDigits, hc]
  | cons d ds ih =>
    have hd : isDigit d = true := hds d (List.mem_cons_self _ _)
    have := ih (fun x hx => hds x (List.mem_cons_of_mem _ hx))
    simp [spanDigits, hd, this]

/-- The property "ends a number": a character that is no digit and starts neither a
fraction nor an exponent. -/
theorem scanFraction_stop (lit : List Char) (c : Char) (rest : List Char)
    (hdot : c ≠ '.') (he : c ≠ 'e') (hE : c ≠ 'E') :
    scanFraction lit (c :: rest) = some (lit, c :: rest) := by
  simp [scanFraction, scanExponent, hdot, he, hE]

theorem scanInteger_formatNat (sign : List Char) (m : Nat) (c : Char) (rest : List Char)
    (hc : isDigit c = false) (hdot : c ≠ '.') (he : c ≠ 'e') (hE : c ≠ 'E') :
    scanInteger sign (formatNat m ++ c :: rest) = some (sign ++ formatNat m, c :: rest) := by
  rcases Nat.eq_zero_or_pos m with h0 | hpos
  · subst h0
    rw [formatNat_zero]
    simp [scanInteger, scanFraction_stop _ c rest hdot he hE]
  · obtain ⟨d, tl, heq, hd0, hdd, htl⟩ := formatNat_pos m hpos
    rw [heq]
    have hspan := spanDigits_append tl c rest htl hc
    simp [scanInteger, hd0, hdd, hspan, scanFraction_stop _ c rest hdot he hE]

theorem isDigit_ne_minus {c : Char} (h : isDigit c = true) : c ≠ '-' := by
  intro hc; subst hc; revert h; decide

theorem formatNat_head_digit (m : Nat) :
    ∃ d tl, formatNat m = d :: tl ∧ isDigit d = true := by
  rcases Nat.eq_zero_or_pos m with h0 | hpos
  · subst h0; exact ⟨'0', [], rfl, rfl⟩
  · obtain ⟨d, tl, heq, _, hdd, _⟩ := formatNat_pos m hpos
    exact ⟨d, tl, heq, hdd⟩

/-- The text `%d` writes starts with `-` or with a digit. -/
theorem formatInt_head (n : Int) :
    ∃ d tl, formatInt n = d :: tl ∧ (d = '-' ∨ isDigit d = true) := by
  unfold formatInt
  by_cases h : n < 0
  · rw [if_pos h]; exact ⟨'-', _, rfl, Or.inl rfl⟩
  · rw [if_neg h]
    obtain ⟨d, tl, heq, hd⟩ := formatNat_head_digit n.toNat
    exact ⟨d, tl, heq, Or.inr hd⟩

/-- The scanner reads the text `%d` writes as one number literal, up to a
character that ends a number. -/
theorem scanNumber_formatInt (n : Int) (c : Char) (rest : List Char)
    (hc : isDigit c = false) (hdot : c ≠ '.') (he : c ≠ 'e') (hE : c ≠ 'E') :
    scanNumber (formatInt n ++ c :: rest) = some (formatInt n, c :: rest) := by
  unfold formatInt
  by_cases h : n < 0
  · rw [if_pos h]
    simp [scanNumber, scanInteger_formatNat ['-'] n.natAbs c rest hc hdot he hE]
  · rw [if_neg h]
    obtain ⟨d, tl, heq, hd⟩ := formatNat_head_digit n.toNat
    have hs := scanInteger_formatNat [] n.toNat c rest hc hdot he hE
    rw [heq] at hs ⊢
    simpa [scanNumber, isDigit_ne_minus hd] using hs

/-- `ParseInt` reads back what `%d` wrote for an `int64`. -/
theorem parseInt_formatInt (n : Int) (hn : isInt64 n) : parseInt (formatInt n) = some n := by
  unfold isInt64 minInt64 maxInt64 at hn
  unfold formatInt
  by_cases h : n < 0
  · rw [if_pos h]
    obtain ⟨d, tl, heq, _⟩ := formatNat_head_digit n.natAbs
    have hp := parseDigits_formatNat n.natAbs
    have hle : n.natAbs ≤ 2 ^ 63 := by omega
    have hneg : -((n.natAbs : Nat) : Int) = n := by omega
    rw [heq] at hp
    simp only [parseInt, heq, hp, if_true, if_pos hle, hneg]
  · rw [if_neg h]
    obtain ⟨d, tl, heq, hd⟩ := formatNat_head_digit n.toNat
    have hp := parseDigits_formatNat n.toNat
    have hlt : n.toNat < 2 ^ 63 := by omega
    have hpos : ((n.toNat : Nat) : Int) = n := by omega
    have hplus : d ≠ '+' := by intro hc; subst hc; revert hd; decide
    rw [heq] at hp
    simp only [parseInt, heq, hp, if_neg (isDigit_ne_minus hd), if_neg hplus, if_pos hlt, hpos]

/-! ## Lemmas on the decoding of a request body -/

theorem skipSpace_of_not_space (c : Char) (cs : List Char) (h : isSpace c = false) :
    skipSpace (c :: cs) = c :: cs := by
  simp [skipSpace, h]

theorem isSpace_formatInt_head {d : Char} (h : d = '-' ∨ isDigit d = true) :
    isSpace d = false := by
  rcases h with h | h
  · subst h; rfl
  · cases hs : isSpace d with
    | false => rfl
    | true =>
      have : d = ' ' ∨ d = '\t' ∨ d = '\r' ∨ d = '\n' := by simpa [isSpace] using hs
      rcases this with h1 | h1 | h1 | h1 <;> (subst h1; revert h; decide)

/-- The characters at which `parseValue` does not take the input for a number. -/
theorem formatInt_head_ne {d : Char} (h : d = '-' ∨ isDigit d = true) :
    d ≠ '\x7b' ∧ d ≠ '[' ∧ d ≠ '"' ∧ d ≠ 't' ∧ d ≠ 'f' ∧ d ≠ 'n' := by
  rcases h with h | h
  · subst h; decide
  · refine ⟨?_, ?_, ?_, ?_, ?_, ?_⟩ <;> (intro hc; subst hc; revert h; decide)

/-- A value that is the text `%d` writes, followed by a closing brace, is read as
the number literal with that text. -/
theorem parseValue_formatInt (fuel depth : Nat) (n : Int) (rest : List Char) :
    parseValue (fuel + 1) depth (formatInt n ++ '\x7d' :: rest)
      = some (JValue.number (formatInt n), '\x7d' :: rest) := by
  have hscan := scanNumber_formatInt n '\x7d' rest (by decide) (by decide) (by decide) (by decide)
  obtain ⟨d, tl, heq, hd⟩ := formatInt_head n
  obtain ⟨h1, h2, h3, h4, h5, h6⟩ := formatInt_head_ne hd
  rw [heq] at hscan ⊢
  simp only [List.cons_append] at hscan ⊢
  rw [parseValue]
  simp only [if_neg h1, if_neg h2, if_neg h3, if_neg h4, if_neg h5, if_neg h6, hscan,
    Option.map_some']

/-- The members of the object the client sends: the single pair of the key `n`
and the number literal. -/
theorem parseMembers_requestBody (fuel : Nat) (n : Int) :
    parseMembers (fuel + 2) 1 ('"' :: 'n' :: '"' :: ':' :: ' ' :: (formatInt n ++ ['\x7d'])) []
      = some ([(['n'], JValue.number (formatInt n))], []) := by
  obtain ⟨d, tl, heq, hd⟩ := formatInt_head n
  have hsp : skipSpace (formatInt n ++ ['\x7d']) = formatInt n ++ ['\x7d'] := by
    rw [heq]; exact skipSpace_of_not_space d _ (isSpace_formatInt_head hd)
  have hval := parseValue_formatInt fuel 1 n []
  have hstr : ∀ (k : Nat) (cs : List Char),
      parseString (k + 2) ('n' :: '"' :: cs) [] = some (['n'], cs) := by
    intro k cs
    simp [parseString]
  rw [parseMembers]
  simp only [List.length_cons, if_true]
  rw [hstr]
  have h1 : skipSpace (':' :: ' ' :: (formatInt n ++ ['\x7d']))
      = ':' :: ' ' :: (formatInt n ++ ['\x7d']) := skipSpace_of_not_space _ _ rfl
  have h2 : skipSpace (' ' :: (formatInt n ++ ['\x7d'])) = formatInt n ++ ['\x7d'] := by
    have hs : isSpace ' ' = true := rfl
    rw [skipSpace, if_pos hs, hsp]
  simp only [h1, if_true, h2, hval]
  simp [skipSpace, isSpace]

/-- Decoding of the body the client builds. -/
theorem decodeReqBody_requestBody (n : Int) (hn : isInt64 n) :
    decodeReqBody (requestBody n) = Except.ok n := by
  have hmem := fun fuel => parseMembers_requestBody fuel n
  have hint := parseInt_formatInt n hn
  have hkey : keyMatches ['n'] ['n'] = true := by decide
  unfold decodeReqBody decodeStruct requestBody
  simp only [List.cons_append, List.nil_append, List.append_assoc]
  rw [skipSpace_of_not_space '\x7b' _ rfl]
  simp only [if_true]
  rw [skipSpace_of_not_space '"' _ rfl]
  simp only [show ('"' = '\x7d') = False by decide, if_false, List.length_cons]
  rw [show 2 * ((formatInt n ++ ['\x7d']).length + 1 + 1 + 1 + 1 + 1) + 2
      = (2 * ((formatInt n ++ ['\x7d']).length + 1 + 1 + 1 + 1 + 1)) + 2 from rfl, hmem]
  simp [storeMembers, hkey, hint]

/-! ## Theorem on the round trip of a request -/

/-- C9: for every `int64` `n`, the body the client builds for `n` with the format
`{"n": %d}` is decoded by the service's request decoder without error, into a
request whose field `n` is the original `n`. -/
theorem request_round_trip (n : Int) (hn : isInt64 n) :
    decodeReqBody (requestBody n) = Except.ok n :=
  decodeReqBody_requestBody n hn

/-- C9 at the smallest `int64`, whose body is `{"n": -9223372036854775808}`. -/
theorem request_round_trip_witness :
    isInt64 (-9223372036854775808) ∧
    requestBody (-9223372036854775808)
      = ['\x7b', '"', 'n', '"', ':', ' ', '-', '9', '2', '2', '3', '3', '7', '2', '0', '3', '6',
         '8', '5', '4', '7', '7', '5', '8', '0', '8', '\x7d'] ∧
    decodeReqBody (requestBody (-9223372036854775808)) = Except.ok (-9223372036854775808) :=
  ⟨by decide, by rfl, request_round_trip (-9223372036854775808) (by decide)⟩

end OtelExample
